import Mathlib

/-!
# Bilingual Reader — pagination engine and reader state machine

Shallow embedding of the pagination engine and reader state machine of
`reader_component.py` (the JavaScript embedded in `generate_reader_html`),
together with the progressive-append path of `app.py` (`show_reader`).

Numbers that the source manipulates (font size, margin, viewport
dimensions, measured heights) are modelled as rationals; measured pair
heights are abstracted as a function of the pair index, the font size and
the container width, mirroring the DOM measurement
`tempEl.offsetHeight + state.fontSize * 0.8` performed at container width
`viewport.clientWidth - state.margin * 2`.
-/

namespace BilingualReader

/-- The height-measure function: `measure i fontSize containerWidth` is the
rendered height of sentence pair `i` at the given font size and container
width (source: the `measurer` element in `paginateContent`,
`tempEl.offsetHeight + (state.fontSize * 0.8)`). -/
abbrev Measure : Type := ℕ → ℚ → ℚ → ℚ

/-- Source: `containerHeight = viewport.clientHeight - (state.margin * 2)`
(source: `paginateContent`, line 462). -/
def containerHeight (vh margin : ℚ) : ℚ := vh - margin * 2

/-- Source: `containerWidth = viewport.clientWidth - (state.margin * 2)`
(source: `paginateContent`, line 463). -/
def containerWidth (vw margin : ℚ) : ℚ := vw - margin * 2

/-- The greedy pagination loop of `paginateContent` (lines 479-502):
processes the remaining pair indices `todo` with accumulator state
`(pages, cur, acc)` = (closed pages so far, open page, accumulated height).
For each index `i`: if `acc + h i > C` and the open page is non-empty the
open page is closed and a new page `[i]` is started with height `h i`;
otherwise `i` is appended to the open page and `h i` accumulated. -/
def paginateLoop (h : ℕ → ℚ) (C : ℚ) :
    List ℕ → List (List ℕ) → List ℕ → ℚ → List (List ℕ) × List ℕ × ℚ
  | [], pages, cur, acc => (pages, cur, acc)
  | i :: rest, pages, cur, acc =>
    if C < acc + h i ∧ cur ≠ [] then
      paginateLoop h C rest (pages ++ [cur]) [i] (h i)
    else
      paginateLoop h C rest pages (cur ++ [i]) (acc + h i)

/-- One full pagination pass over a store of `n` pairs with per-index
height `h` and container height `C`: run the loop over `[0, …, n-1]`
starting from no pages, an empty open page and accumulated height `0`,
then close the final open page if it is non-empty
(source: `paginateContent` lines 475-507). -/
def paginatePages (h : ℕ → ℚ) (C : ℚ) (n : ℕ) : List (List ℕ) :=
  let r := paginateLoop h C (List.range n) [] [] 0
  if r.2.1 = [] then r.1 else r.1 ++ [r.2.1]

/-- The full pagination pipeline: derive the per-index height function and
the container height from the display parameters and viewport, then run
the greedy pass (source: `paginateContent` lines 461-507). -/
def paginateFull (measure : Measure) (fs margin vw vh : ℚ) (n : ℕ) :
    List (List ℕ) :=
  paginatePages (fun i => measure i fs (containerWidth vw margin))
    (containerHeight vh margin) n

/-- Loop invariant behind the coverage property: the flattening of the
closed pages followed by the open page always equals the already-processed
indices followed by the still-to-be-processed ones. -/
theorem paginateLoop_flatten (h : ℕ → ℚ) (C : ℚ) :
    ∀ (todo : List ℕ) (pages : List (List ℕ)) (cur : List ℕ) (acc : ℚ),
      ((paginateLoop h C todo pages cur acc).1).flatten ++
          (paginateLoop h C todo pages cur acc).2.1 =
        pages.flatten ++ cur ++ todo := by
  intro todo
  induction todo with
  | nil => intro pages cur acc; simp [paginateLoop]
  | cons i rest ih =>
    intro pages cur acc
    rw [paginateLoop]
    by_cases hc : C < acc + h i ∧ cur ≠ []
    · rw [if_pos hc, ih]
      simp [List.flatten_append, List.append_assoc]
    · rw [if_neg hc, ih]
      simp [List.append_assoc]

/-- The flattening of one pagination pass over `n` pairs is exactly
`[0, …, n-1]`. -/
theorem paginatePages_flatten (h : ℕ → ℚ) (C : ℚ) (n : ℕ) :
    (paginatePages h C n).flatten = List.range n := by
  unfold paginatePages
  have key := paginateLoop_flatten h C (List.range n) [] [] 0
  by_cases hc : (paginateLoop h C (List.range n) [] [] 0).2.1 = []
  · rw [if_pos hc]
    rw [hc] at key
    simpa using key
  · rw [if_neg hc]
    rw [List.flatten_append]
    simpa using key

/-- C1. Coverage: for every sentence-pair store (of `n` pairs), display
parameters, viewport dimensions and height-measure function, the
concatenation of all pages' index lists produced by one pagination pass
equals `[0, 1, …, n-1]` — every index appears exactly once, in ascending
order, with no gaps, duplicates or reordering. -/
theorem paginate_coverage (measure : Measure) (fs margin vw vh : ℚ) (n : ℕ) :
    (paginateFull measure fs margin vw vh n).flatten = List.range n :=
  paginatePages_flatten _ _ n

/-! ## Reference greedy algorithm (spec §4.2), for the refinement claim C3 -/

/-- Reference loop following the spec's words (§4.2 steps 2-4): keep an
index list for the current page and an accumulated height; if
`accumulatedHeight + h > containerHeight` AND the current page is
non-empty, close the current page and start a new page containing only
this pair with `accumulatedHeight = h`; else append the pair's index and
add `h`. After the loop, close the current page if it is non-empty. -/
def specGreedyLoop (h : ℕ → ℚ) (C : ℚ) :
    List ℕ → List ℕ → ℚ → List (List ℕ)
  | [], cur, _ => if cur = [] then [] else [cur]
  | i :: rest, cur, acc =>
    if acc + h i > C ∧ cur ≠ [] then
      cur :: specGreedyLoop h C rest [i] (h i)
    else
      specGreedyLoop h C rest (cur ++ [i]) (acc + h i)

/-- Reference paginator following the spec's words (§4.2 steps 1-4):
`containerHeight = viewportHeight − 2×margin`,
`containerWidth = viewportWidth − 2×margin`, then greedy first-fit packing
of the pairs in store order starting from an empty current page and
`accumulatedHeight = 0`. -/
def specPaginate (measure : Measure) (fs margin vw vh : ℚ) (n : ℕ) :
    List (List ℕ) :=
  specGreedyLoop (fun i => measure i fs (vw - 2 * margin)) (vh - 2 * margin)
    (List.range n) [] 0

/-- The code's loop (with its final close step) computes the reference
loop, shifted by the already-closed pages. -/
theorem paginateLoop_eq_specGreedyLoop (h : ℕ → ℚ) (C : ℚ) :
    ∀ (todo : List ℕ) (pages : List (List ℕ)) (cur : List ℕ) (acc : ℚ),
      (if (paginateLoop h C todo pages cur acc).2.1 = []
        then (paginateLoop h C todo pages cur acc).1
        else (paginateLoop h C todo pages cur acc).1 ++
          [(paginateLoop h C todo pages cur acc).2.1]) =
        pages ++ specGreedyLoop h C todo cur acc := by
  intro todo
  induction todo with
  | nil =>
    intro pages cur acc
    by_cases hcur : cur = [] <;>
      simp [paginateLoop, specGreedyLoop, hcur]
  | cons i rest ih =>
    intro pages cur acc
    rw [paginateLoop, specGreedyLoop]
    by_cases hc : C < acc + h i ∧ cur ≠ []
    · rw [if_pos hc, if_pos hc, ih]
      simp
    · rw [if_neg hc, if_neg hc, ih]

/-- C3. Greedy first-fit step: one pagination pass of the code equals the
reference greedy algorithm of the spec (container height
`viewportHeight − 2×margin`, pairs processed in store order, a new page
started exactly when `accumulatedHeight + h > containerHeight` and the
current page is non-empty); in particular, at exact equality
`accumulatedHeight + h = containerHeight` (modelled by the accumulated
height `C - h i`) the pair is appended to the current — non-empty — page
rather than pushed to the next one. -/
theorem paginate_matches_spec (measure : Measure) (fs margin vw vh : ℚ)
    (n : ℕ) :
    paginateFull measure fs margin vw vh n =
      specPaginate measure fs margin vw vh n ∧
    ∀ (h : ℕ → ℚ) (C : ℚ) (rest : List ℕ) (pages : List (List ℕ))
      (c : ℕ) (cs : List ℕ) (i : ℕ),
      paginateLoop h C (i :: rest) pages (c :: cs) (C - h i) =
        paginateLoop h C rest pages ((c :: cs) ++ [i]) (C - h i + h i) := by
  constructor
  · have key := paginateLoop_eq_specGreedyLoop
      (fun i => measure i fs (containerWidth vw margin))
      (containerHeight vh margin) (List.range n) [] [] 0
    simp only [List.nil_append] at key
    unfold paginateFull paginatePages specPaginate
    rw [key]
    have hH : containerHeight vh margin = vh - 2 * margin := by
      unfold containerHeight; ring
    have hW : containerWidth vw margin = vw - 2 * margin := by
      unfold containerWidth; ring
    rw [hH, hW]
  · intro h C rest pages c cs i
    rw [paginateLoop, if_neg]
    rintro ⟨hlt, -⟩
    have : C - h i + h i = C := by ring
    rw [this] at hlt
    exact lt_irrefl C hlt

/-! ## Reader state machine (the `state` object and event handlers of the
embedded script, lines 442-682) -/

/-- The reader state object (source lines 442-449) together with the
viewport dimensions that `paginateContent` reads from the DOM
(`viewport.clientWidth` / `viewport.clientHeight`) and that a resize event
replaces. -/
@[ext]
structure RState where
  currentPage : ℤ
  totalPages : ℤ
  pages : List (List ℕ)
  fontSize : ℚ
  margin : ℚ
  overlayVisible : Bool
  vw : ℚ
  vh : ℚ
deriving Repr

/-- The initial reader state (source lines 442-449): page 0, one total
page, no pages computed yet, overlay hidden, caller-supplied font size and
margin (defaults 18 and 24). -/
def initState (fs margin vw vh : ℚ) : RState :=
  { currentPage := 0, totalPages := 1, pages := [], fontSize := fs,
    margin := margin, overlayVisible := false, vw := vw, vh := vh }

/-- The function `paginateContent` as a state transformer over a store of `n` pairs
(source lines 461-520): recompute the pages with the current font size,
margin and viewport, set `totalPages = pages.length || 1`, and clamp
`currentPage` to `totalPages - 1` when it is not below `totalPages`. -/
def paginateContent (measure : Measure) (n : ℕ) (s : RState) : RState :=
  let pages := paginateFull measure s.fontSize s.margin s.vw s.vh n
  let T : ℤ := if pages.length = 0 then 1 else (pages.length : ℤ)
  { s with pages := pages, totalPages := T,
           currentPage := if T ≤ s.currentPage then T - 1 else s.currentPage }

/-- Navigation via `goToPage` (source lines 575-581): only acts when
`0 ≤ pageNum < totalPages`; otherwise the state is untouched. -/
def goToPage (s : RState) (pageNum : ℤ) : RState :=
  if 0 ≤ pageNum ∧ pageNum < s.totalPages then
    { s with currentPage := pageNum }
  else s

/-- Navigation via `nextPage` (source lines 583-587): guarded by
`currentPage < totalPages - 1`. -/
def nextPage (s : RState) : RState :=
  if s.currentPage < s.totalPages - 1 then goToPage s (s.currentPage + 1)
  else s

/-- Navigation via `prevPage` (source lines 589-593): guarded by `currentPage > 0`. -/
def prevPage (s : RState) : RState :=
  if 0 < s.currentPage then goToPage s (s.currentPage - 1) else s

/-- Overlay toggling, `toggleOverlay` (source lines 596-599). -/
def toggleOverlay (s : RState) : RState :=
  { s with overlayVisible := !s.overlayVisible }

/-- Font control `adjustFontSize` (source lines 602-605):
`fontSize = Math.max(12, Math.min(32, fontSize + delta))`, then a full
re-pagination. -/
def adjustFontSize (measure : Measure) (n : ℕ) (delta : ℚ) (s : RState) :
    RState :=
  paginateContent measure n
    { s with fontSize := max 12 (min 32 (s.fontSize + delta)) }

/-- Margin control `adjustMargin` (source lines 608-611):
`margin = Math.max(8, Math.min(64, margin + delta))`, then a full
re-pagination. -/
def adjustMargin (measure : Measure) (n : ℕ) (delta : ℚ) (s : RState) :
    RState :=
  paginateContent measure n
    { s with margin := max 8 (min 64 (s.margin + delta)) }

/-- Events the reader reacts to (source lines 624-672): navigation,
overlay toggle, the ±2 / ±8 parameter buttons (modelled with an arbitrary
delta) and the debounced resize, which re-reads the viewport dimensions
and re-paginates. -/
inductive REvent where
  | next : REvent
  | prev : REvent
  | goTo (pageNum : ℤ) : REvent
  | toggle : REvent
  | font (delta : ℚ) : REvent
  | marginBy (delta : ℚ) : REvent
  | resize (w h : ℚ) : REvent

/-- One transition of the reader state machine. -/
def step (measure : Measure) (n : ℕ) (s : RState) : REvent → RState
  | .next => nextPage s
  | .prev => prevPage s
  | .goTo p => goToPage s p
  | .toggle => toggleOverlay s
  | .font d => adjustFontSize measure n d s
  | .marginBy d => adjustMargin measure n d s
  | .resize w h => paginateContent measure n { s with vw := w, vh := h }

/-- Run a sequence of events from a state. -/
def run (measure : Measure) (n : ℕ) (events : List REvent) (s : RState) :
    RState :=
  events.foldl (step measure n) s

/-- What `renderCurrentPage` (source lines 523-556) puts into the page
container: the no-content message when no pages exist, otherwise the
current page's index list (`state.pages[state.currentPage] || []`). -/
inductive RenderResult where
  | noContent : RenderResult
  | content (indices : List ℕ) : RenderResult
deriving DecidableEq, Repr

/-- The function `renderCurrentPage` of the state (source lines 523-556). -/
def renderCurrentPage (s : RState) : RenderResult :=
  if s.pages.length = 0 then .noContent
  else .content (s.pages.getD s.currentPage.toNat [])

/-! ## The clamp invariant (C2) -/

/-- The navigational invariant: the current page index is in range for
`totalPages`, and `totalPages` is the page count, floored at one. -/
def Inv (s : RState) : Prop :=
  0 ≤ s.currentPage ∧ s.currentPage < s.totalPages ∧
    s.totalPages = max 1 (s.pages.length : ℤ)

/-- A pagination pass establishes the invariant from any state with a
non-negative current page. -/
theorem paginateContent_inv (measure : Measure) (n : ℕ) (s : RState)
    (h0 : 0 ≤ s.currentPage) : Inv (paginateContent measure n s) := by
  unfold Inv paginateContent
  set pages := paginateFull measure s.fontSize s.margin s.vw s.vh n with hp
  set T : ℤ := if pages.length = 0 then 1 else (pages.length : ℤ) with hT
  have hT1 : 1 ≤ T := by
    rw [hT]
    split
    · exact le_refl 1
    · rename_i hne
      exact_mod_cast Nat.one_le_iff_ne_zero.mpr hne
  have hTmax : T = max 1 (pages.length : ℤ) := by
    rw [hT]
    split
    · rename_i hz
      rw [hz]
      simp
    · rename_i hne
      have : (1 : ℤ) ≤ (pages.length : ℤ) := by
        exact_mod_cast Nat.one_le_iff_ne_zero.mpr hne
      omega
  refine ⟨?_, ?_, hTmax⟩ <;> simp only [] <;> split <;> omega

/-- The transition `goToPage` preserves the invariant. -/
theorem goToPage_inv (s : RState) (p : ℤ) (h : Inv s) : Inv (goToPage s p) := by
  unfold goToPage
  split
  · rename_i hg
    exact ⟨hg.1, hg.2, h.2.2⟩
  · exact h

/-- The transition `nextPage` preserves the invariant. -/
theorem nextPage_inv (s : RState) (h : Inv s) : Inv (nextPage s) := by
  unfold nextPage
  split
  · exact goToPage_inv s _ h
  · exact h

/-- The transition `prevPage` preserves the invariant. -/
theorem prevPage_inv (s : RState) (h : Inv s) : Inv (prevPage s) := by
  unfold prevPage
  split
  · exact goToPage_inv s _ h
  · exact h

/-- Every transition of the reader state machine preserves the invariant. -/
theorem step_inv (measure : Measure) (n : ℕ) (s : RState) (e : REvent)
    (h : Inv s) : Inv (step measure n s e) := by
  cases e with
  | next => exact nextPage_inv s h
  | prev => exact prevPage_inv s h
  | goTo p => exact goToPage_inv s p h
  | toggle => exact ⟨h.1, h.2.1, h.2.2⟩
  | font d => exact paginateContent_inv measure n _ h.1
  | marginBy d => exact paginateContent_inv measure n _ h.1
  | resize w hgt => exact paginateContent_inv measure n _ h.1

/-- Running any event sequence preserves the invariant. -/
theorem run_inv (measure : Measure) (n : ℕ) (events : List REvent)
    (s : RState) (h : Inv s) : Inv (run measure n events s) := by
  induction events generalizing s with
  | nil => exact h
  | cons e rest ih => exact ih _ (step_inv measure n s e h)

/-- C2. Clamp invariant: for every sequence of events (`nextPage`,
`prevPage`, `goToPage`, `toggleOverlay`, `adjustFontSize`, `adjustMargin`,
resize-triggered re-pagination) applied from the initial state (which runs
one pagination pass on load), after every transition
`0 ≤ currentPage < totalPages` holds with
`totalPages = max 1 pages.length`; in particular, whenever re-pagination
shrinks the page count the current page is clamped to the new last page. -/
theorem clamp_invariant_run (measure : Measure) (n : ℕ)
    (fs margin vw vh : ℚ) (events : List REvent) :
    0 ≤ (run measure n events
        (paginateContent measure n (initState fs margin vw vh))).currentPage ∧
    (run measure n events
        (paginateContent measure n (initState fs margin vw vh))).currentPage <
      (run measure n events
        (paginateContent measure n (initState fs margin vw vh))).totalPages ∧
    (run measure n events
        (paginateContent measure n (initState fs margin vw vh))).totalPages =
      max 1 ((run measure n events
        (paginateContent measure n (initState fs margin vw vh))).pages.length : ℤ) :=
  run_inv measure n events _
    (paginateContent_inv measure n (initState fs margin vw vh) (le_refl 0))

/-! ## Guard-violating navigation (C9) -/

/-- C9. Guard-violating navigation is a no-op: in every reader state,
`nextPage` at the last page, `prevPage` at page 0, and `goToPage n` with
`n < 0` or `n ≥ totalPages` leave the entire reader state (current page,
pages, total pages, overlay flag, font size, margin, viewport) unchanged
and raise no error. -/
theorem nav_guard_noop (s : RState) :
    (s.currentPage = s.totalPages - 1 → nextPage s = s) ∧
    (s.currentPage = 0 → prevPage s = s) ∧
    (∀ p : ℤ, p < 0 ∨ s.totalPages ≤ p → goToPage s p = s) := by
  refine ⟨?_, ?_, ?_⟩
  · intro h
    unfold nextPage
    rw [if_neg]
    omega
  · intro h
    unfold prevPage
    rw [if_neg]
    omega
  · intro p hp
    unfold goToPage
    rw [if_neg]
    rintro ⟨h0, hT⟩
    omega

/-- Witness for C9 at a concrete state: the freshly initialised reader
(`currentPage = 0`, `totalPages = 1`) sits at both guards, and `goToPage`
with `-1` and with `5` are both out of range. -/
theorem nav_guard_noop_witness :
    nextPage (initState 18 24 800 600) = initState 18 24 800 600 ∧
    prevPage (initState 18 24 800 600) = initState 18 24 800 600 ∧
    goToPage (initState 18 24 800 600) (-1) = initState 18 24 800 600 ∧
    goToPage (initState 18 24 800 600) 5 = initState 18 24 800 600 :=
  ⟨(nav_guard_noop (initState 18 24 800 600)).1 (by rfl),
   (nav_guard_noop (initState 18 24 800 600)).2.1 (by rfl),
   (nav_guard_noop (initState 18 24 800 600)).2.2 (-1) (Or.inl (by norm_num)),
   (nav_guard_noop (initState 18 24 800 600)).2.2 5
     (Or.inr (by norm_num [initState]))⟩

/-! ## Parameter adjustment at a bound (C10) -/

/-- Pagination is idempotent: a second pass with unchanged
parameters recomputes the identical layout and the clamp does not move a
current page that is already in range. -/
theorem paginateContent_idem (measure : Measure) (n : ℕ) (s : RState) :
    paginateContent measure n (paginateContent measure n s) =
      paginateContent measure n s := by
  ext1 <;> simp only [paginateContent]
  split_ifs <;> omega

/-- C10. Parameter adjustment at a bound is a full-state no-op: in any
reader state that is a fixpoint of pagination (as every state produced by
`paginateContent` is), `adjustFontSize (+2)` at `fontSize = 32`,
`adjustFontSize (-2)` at `fontSize = 12`, `adjustMargin (+8)` at
`margin = 64` and `adjustMargin (-8)` at `margin = 8` leave the whole
state (font size, margin, pages, total pages, current page, overlay flag)
unchanged, even though a full pagination pass is still executed. -/
theorem adjust_at_bound_noop (measure : Measure) (n : ℕ) (s : RState)
    (hfix : paginateContent measure n s = s) :
    (s.fontSize = 32 → adjustFontSize measure n 2 s = s) ∧
    (s.fontSize = 12 → adjustFontSize measure n (-2) s = s) ∧
    (s.margin = 64 → adjustMargin measure n 8 s = s) ∧
    (s.margin = 8 → adjustMargin measure n (-8) s = s) := by
  refine ⟨?_, ?_, ?_, ?_⟩
  · intro h
    unfold adjustFontSize
    have hc : max 12 (min 32 (s.fontSize + 2)) = s.fontSize := by
      rw [h]; norm_num
    rw [hc]
    exact hfix
  · intro h
    unfold adjustFontSize
    have hc : max 12 (min 32 (s.fontSize + (-2))) = s.fontSize := by
      rw [h]; norm_num
    rw [hc]
    exact hfix
  · intro h
    unfold adjustMargin
    have hc : max 8 (min 64 (s.margin + 8)) = s.margin := by
      rw [h]; norm_num
    rw [hc]
    exact hfix
  · intro h
    unfold adjustMargin
    have hc : max 8 (min 64 (s.margin + (-8))) = s.margin := by
      rw [h]; norm_num
    rw [hc]
    exact hfix

/-- Witness for C10 at concrete states: a paginated one-pair reader at
`fontSize = 32`, `margin = 64`, and another at `fontSize = 12`,
`margin = 8`; all four bound-hitting adjustments leave them unchanged. -/
theorem adjust_at_bound_noop_witness :
    adjustFontSize (fun _ _ _ => 6) 1 2
        (paginateContent (fun _ _ _ => 6) 1 (initState 32 64 200 200)) =
      paginateContent (fun _ _ _ => 6) 1 (initState 32 64 200 200) ∧
    adjustMargin (fun _ _ _ => 6) 1 8
        (paginateContent (fun _ _ _ => 6) 1 (initState 32 64 200 200)) =
      paginateContent (fun _ _ _ => 6) 1 (initState 32 64 200 200) ∧
    adjustFontSize (fun _ _ _ => 6) 1 (-2)
        (paginateContent (fun _ _ _ => 6) 1 (initState 12 8 200 200)) =
      paginateContent (fun _ _ _ => 6) 1 (initState 12 8 200 200) ∧
    adjustMargin (fun _ _ _ => 6) 1 (-8)
        (paginateContent (fun _ _ _ => 6) 1 (initState 12 8 200 200)) =
      paginateContent (fun _ _ _ => 6) 1 (initState 12 8 200 200) :=
  ⟨(adjust_at_bound_noop (fun _ _ _ => 6) 1 _
      (paginateContent_idem (fun _ _ _ => 6) 1 (initState 32 64 200 200))).1
      rfl,
   (adjust_at_bound_noop (fun _ _ _ => 6) 1 _
      (paginateContent_idem (fun _ _ _ => 6) 1 (initState 32 64 200 200))).2.2.1
      rfl,
   (adjust_at_bound_noop (fun _ _ _ => 6) 1 _
      (paginateContent_idem (fun _ _ _ => 6) 1 (initState 12 8 200 200))).2.1
      rfl,
   (adjust_at_bound_noop (fun _ _ _ => 6) 1 _
      (paginateContent_idem (fun _ _ _ => 6) 1 (initState 12 8 200 200))).2.2.2
      rfl⟩

/-! ## Empty store (C7) -/

/-- A pagination pass over an empty store produces no pages at all. -/
theorem paginatePages_zero (h : ℕ → ℚ) (C : ℚ) : paginatePages h C 0 = [] := by
  simp [paginatePages, paginateLoop]

/-- C7 counterexample: for an empty store the pagination pass yields the
empty list of pages — not a single empty page `[[]]` as the claim states. -/
theorem empty_store_no_page_cex :
    paginateFull (fun _ _ _ => 6) 18 24 800 600 0 = ([] : List (List ℕ)) ∧
      ([] : List (List ℕ)) ≠ [[]] := by
  exact ⟨paginatePages_zero _ _, by simp⟩

/-- C7 as amended: for an empty sentence-pair store, under any parameters
and viewport, one pagination pass yields an empty PageLayout (zero pages);
`totalPages` is nevertheless 1 (the `pages.length || 1` fallback), the
renderer reports no content rather than crashing, and the current page is
0. -/
theorem empty_store_layout (measure : Measure) (fs margin vw vh : ℚ) :
    (paginateContent measure 0 (initState fs margin vw vh)).pages = [] ∧
    (paginateContent measure 0 (initState fs margin vw vh)).totalPages = 1 ∧
    renderCurrentPage (paginateContent measure 0 (initState fs margin vw vh)) =
      .noContent ∧
    (paginateContent measure 0 (initState fs margin vw vh)).currentPage = 0 := by
  have hp : paginateFull measure fs margin vw vh 0 = [] := paginatePages_zero _ _
  refine ⟨?_, ?_, ?_, ?_⟩ <;>
    simp [paginateContent, renderCurrentPage, initState, hp]

/-! ## Progressive append (C4): the `show_reader` path of `app.py` -/

/-- The append path of `app.py` (`show_reader`, lines 229-292): a newly
translated batch of `m` pairs is appended to the `n` stored pairs, and the
reader HTML is regenerated from scratch by
`generate_reader_html(st.session_state.sentence_pairs)` with the default
display parameters (font 18, margin 24). The embedded script starts from
its initial state — `currentPage: 0` is hard-coded at line 443; no
previous page index is passed in — and paginates the appended store on
load. -/
def appendAndReload (measure : Measure) (n m : ℕ) (vw vh : ℚ) : RState :=
  paginateContent measure (n + m) (initState 18 24 vw vh)

/-- C4 counterexample: a reader over two one-per-page pairs sitting on
page 1; appending one pair regenerates the reader, whose current page is
0, not 1 — the position is not preserved across append. -/
theorem append_reload_resets_position_cex :
    (nextPage (paginateContent (fun _ _ _ => 6) 2
        (initState 18 24 100 58))).currentPage = 1 ∧
    (appendAndReload (fun _ _ _ => 6) 2 1 100 58).currentPage = 0 ∧
    (1 : ℤ) ≠ 0 := by
  refine ⟨?_, ?_, by norm_num⟩
  · norm_num [nextPage, goToPage, paginateContent, initState, paginateFull,
      paginatePages, paginateLoop, containerHeight, containerWidth,
      List.range_succ]
  · norm_num [appendAndReload, paginateContent, initState, paginateFull,
      paginatePages, paginateLoop, containerHeight, containerWidth,
      List.range_succ]

/-- C4 as amended: when new sentence pairs are appended to the store, the
reader HTML is regenerated from scratch and the embedded reader restarts
from its initial state: after the append, `currentPageIndex` is 0
whatever its pre-append value was (so the position is preserved only when
it was 0). -/
theorem append_reload_position_zero (measure : Measure) (n m : ℕ)
    (vw vh : ℚ) : (appendAndReload measure n m vw vh).currentPage = 0 := by
  simp only [appendAndReload, paginateContent, initState]
  split_ifs <;> omega

/-! ## The pairing (zip) step (C6): `app.py` -/

/-- The pairing step of `show_reader` (`app.py` lines 242-248, and
identically `process_and_open_reader` lines 190-198):
`new_pairs = list(zip(batch_to_translate, batch_translations))` followed by
`st.session_state.sentence_pairs.extend(new_pairs)`. The error channel of
the `Except` records whether the step raises: the code performs the zip
unconditionally — Python's `zip` stops at the shorter list — and contains
no length check, so the result is always `ok`. -/
def extendPairs (prev : List (String × String)) (src trans : List String) :
    Except String (List (String × String)) :=
  Except.ok (prev ++ src.zip trans)

/-- C6 counterexample: a batch of 8 source sentences for which the
translation step returned 7 translations is zipped positionally without
any LengthMismatch being raised: the step returns `ok` with the pairs
silently truncated to 7. -/
theorem zip_mismatch_no_error_cex :
    extendPairs [] ["s1", "s2", "s3", "s4", "s5", "s6", "s7", "s8"]
        ["t1", "t2", "t3", "t4", "t5", "t6", "t7"] =
      Except.ok [("s1", "t1"), ("s2", "t2"), ("s3", "t3"), ("s4", "t4"),
        ("s5", "t5"), ("s6", "t6"), ("s7", "t7")] ∧
    (["s1", "s2", "s3", "s4", "s5", "s6", "s7", "s8"] : List String).length ≠
      (["t1", "t2", "t3", "t4", "t5", "t6", "t7"] : List String).length := by
  exact ⟨rfl, by decide⟩

/-- C6 as amended: on a batch whose translation count differs from its
source count, the pairing step raises no error at all: it zips
positionally, silently truncating to the shorter of the two lists, and
previously paired content is preserved unchanged as a prefix of the
result. -/
theorem extendPairs_silent_truncation (prev : List (String × String))
    (src trans : List String) :
    extendPairs prev src trans = Except.ok (prev ++ src.zip trans) ∧
    (prev ++ src.zip trans).length =
      prev.length + min src.length trans.length := by
  exact ⟨rfl, by simp [List.length_zip]⟩

/-! ## Oversized pairs (C8) -/

/-- Loop invariant for the solo-page property: if all heights are
non-negative, every already-closed page containing an index of height
exceeding `C` is a singleton, the open page has the same property, and the
accumulated height is the sum of the open page's heights — and all of this
is preserved by the loop. -/
theorem paginateLoop_solo (h : ℕ → ℚ) (C : ℚ) (hpos : ∀ i, 0 ≤ h i) :
    ∀ (todo : List ℕ) (pages : List (List ℕ)) (cur : List ℕ) (acc : ℚ),
      (∀ p ∈ pages, ∀ i ∈ p, C < h i → p = [i]) →
      (∀ i ∈ cur, C < h i → cur = [i]) →
      acc = (cur.map h).sum →
      (∀ p ∈ (paginateLoop h C todo pages cur acc).1, ∀ i ∈ p,
        C < h i → p = [i]) ∧
      (∀ i ∈ (paginateLoop h C todo pages cur acc).2.1, C < h i →
        (paginateLoop h C todo pages cur acc).2.1 = [i]) := by
  intro todo
  induction todo with
  | nil =>
    intro pages cur acc hpages hcur _
    exact ⟨hpages, hcur⟩
  | cons i rest ih =>
    intro pages cur acc hpages hcur hacc
    rw [paginateLoop]
    by_cases hc : C < acc + h i ∧ cur ≠ []
    · rw [if_pos hc]
      apply ih
      · intro p hp
        rcases List.mem_append.mp hp with hp' | hp'
        · exact hpages p hp'
        · rw [List.mem_singleton.mp hp']
          exact hcur
      · intro j hj _
        rw [List.mem_singleton.mp hj]
      · simp
    · rw [if_neg hc]
      rw [not_and] at hc
      apply ih
      · exact hpages
      · intro j hj hjC
        by_cases hnil : cur = []
        · subst hnil
          simp only [List.nil_append] at hj ⊢
          rw [List.mem_singleton.mp hj]
        · exfalso
          have hle : acc + h i ≤ C := by
            by_contra hlt
            push_neg at hlt
            exact hnil (not_not.mp (hc hlt))
          have hnn : ∀ x ∈ cur.map h, 0 ≤ x := by
            intro x hx
            rcases List.mem_map.mp hx with ⟨j', _, rfl⟩
            exact hpos j'
          have hsumpos : 0 ≤ (cur.map h).sum := List.sum_nonneg hnn
          rcases List.mem_append.mp hj with hj' | hj'
          · have hjs : h j ≤ (cur.map h).sum :=
              List.single_le_sum hnn _ (List.mem_map.mpr ⟨j, hj', rfl⟩)
            have hi0 := hpos i
            rw [← hacc] at hjs
            linarith
          · rw [List.mem_singleton.mp hj'] at hjC
            rw [hacc] at hle
            linarith
      · simp [hacc]

/-- C8. Oversized pair gets a solo page: for every store, parameters,
viewport and non-negative measure function, every pair whose measured
height strictly exceeds the container height appears in the layout on a
page containing only that pair — it is never split, and never shares a
page. -/
theorem oversized_pair_solo (measure : Measure) (fs margin vw vh : ℚ)
    (n : ℕ)
    (hpos : ∀ i, 0 ≤ measure i fs (containerWidth vw margin)) :
    ∀ p ∈ paginateFull measure fs margin vw vh n, ∀ i ∈ p,
      containerHeight vh margin < measure i fs (containerWidth vw margin) →
        p = [i] := by
  have key := paginateLoop_solo
    (fun i => measure i fs (containerWidth vw margin))
    (containerHeight vh margin) hpos (List.range n) [] [] 0
    (by simp) (by simp) (by simp)
  intro p hp
  unfold paginateFull paginatePages at hp
  by_cases hnil :
      (paginateLoop (fun i => measure i fs (containerWidth vw margin))
        (containerHeight vh margin) (List.range n) [] [] 0).2.1 = []
  · rw [if_pos hnil] at hp
    exact key.1 p hp
  · rw [if_neg hnil] at hp
    rcases List.mem_append.mp hp with hp' | hp'
    · exact key.1 p hp'
    · rw [List.mem_singleton.mp hp']
      exact key.2

/-- Witness for C8 at a concrete input: two pairs of height 20 against a
container height of 10 each land on their own page. -/
theorem oversized_pair_solo_witness :
    paginateFull (fun _ _ _ => (20 : ℚ)) 18 24 100 58 2 = [[0], [1]] ∧
    ([0] : List ℕ) = [0] :=
  ⟨by norm_num [paginateFull, paginatePages, paginateLoop, containerHeight,
      containerWidth, List.range_succ],
   oversized_pair_solo (fun _ _ _ => 20) 18 24 100 58 2
     (fun _ => by norm_num) [0]
     (by norm_num [paginateFull, paginatePages, paginateLoop, containerHeight,
        containerWidth, List.range_succ]) 0 (by simp)
     (by norm_num [containerHeight])⟩

/-! ## Append monotonicity (C5) -/

/-- The pagination loop over a concatenation is the loop over the second
part resumed from the result of the loop over the first part. -/
theorem paginateLoop_append (h : ℕ → ℚ) (C : ℚ) :
    ∀ (t1 t2 : List ℕ) (pages : List (List ℕ)) (cur : List ℕ) (acc : ℚ),
      paginateLoop h C (t1 ++ t2) pages cur acc =
        paginateLoop h C t2 (paginateLoop h C t1 pages cur acc).1
          (paginateLoop h C t1 pages cur acc).2.1
          (paginateLoop h C t1 pages cur acc).2.2 := by
  intro t1
  induction t1 with
  | nil => intro t2 pages cur acc; simp [paginateLoop]
  | cons i rest ih =>
    intro t2 pages cur acc
    rw [List.cons_append, paginateLoop, paginateLoop]
    by_cases hc : C < acc + h i ∧ cur ≠ []
    · rw [if_pos hc, if_pos hc, ih]
    · rw [if_neg hc, if_neg hc, ih]

/-- Shape of a resumed pagination loop: either no page is closed (the
open page only grows by indices of `todo`), or the first page closed is
the original open page extended by indices of `todo`, every later page —
including the final open page — is non-empty and drawn entirely from
`todo`, and the already-closed pages are untouched. -/
theorem paginateLoop_shape (h : ℕ → ℚ) (C : ℚ) :
    ∀ (todo : List ℕ) (pages : List (List ℕ)) (cur : List ℕ) (acc : ℚ),
      ((paginateLoop h C todo pages cur acc).1 = pages ∧
        ∃ l, (paginateLoop h C todo pages cur acc).2.1 = cur ++ l ∧
          ∀ x ∈ l, x ∈ todo) ∨
      (∃ l ps,
        (paginateLoop h C todo pages cur acc).1 =
          pages ++ (cur ++ l) :: ps ∧
        (∀ x ∈ l, x ∈ todo) ∧ cur ++ l ≠ [] ∧
        (∀ q ∈ ps, (∀ x ∈ q, x ∈ todo) ∧ q ≠ []) ∧
        (∀ x ∈ (paginateLoop h C todo pages cur acc).2.1, x ∈ todo) ∧
        (paginateLoop h C todo pages cur acc).2.1 ≠ []) := by
  intro todo
  induction todo with
  | nil =>
    intro pages cur acc
    left
    exact ⟨rfl, [], by simp [paginateLoop], by simp⟩
  | cons i rest ih =>
    intro pages cur acc
    rw [paginateLoop]
    by_cases hc : C < acc + h i ∧ cur ≠ []
    · rw [if_pos hc]
      rcases ih (pages ++ [cur]) [i] (h i) with
        ⟨h1, l, h2, h3⟩ | ⟨l, ps, h1, h2, h3, h4, h5, h6⟩
      · right
        refine ⟨[], [], ?_, by simp, by simpa using hc.2, by simp, ?_, ?_⟩
        · rw [h1]; simp
        · rw [h2]
          intro x hx
          rcases List.mem_append.mp hx with hx' | hx'
          · rw [List.mem_singleton.mp hx']
            exact List.mem_cons_self i rest
          · exact List.mem_cons_of_mem i (h3 x hx')
        · rw [h2]; simp
      · right
        refine ⟨[], ([i] ++ l) :: ps, ?_, by simp, by simpa using hc.2,
          ?_, ?_, h6⟩
        · rw [h1]; simp
        · intro q hq
          rcases List.mem_cons.mp hq with hq' | hq'
          · subst hq'
            refine ⟨?_, by simp⟩
            intro x hx
            rcases List.mem_append.mp hx with hx' | hx'
            · rw [List.mem_singleton.mp hx']
              exact List.mem_cons_self i rest
            · exact List.mem_cons_of_mem i (h2 x hx')
          · exact ⟨fun x hx => List.mem_cons_of_mem i ((h4 q hq').1 x hx),
              (h4 q hq').2⟩
        · intro x hx
          exact List.mem_cons_of_mem i (h5 x hx)
    · rw [if_neg hc]
      rcases ih pages (cur ++ [i]) (acc + h i) with
        ⟨h1, l, h2, h3⟩ | ⟨l, ps, h1, h2, h3, h4, h5, h6⟩
      · left
        refine ⟨h1, i :: l, ?_, ?_⟩
        · rw [h2]; simp
        · intro x hx
          rcases List.mem_cons.mp hx with hx' | hx'
          · subst hx'; exact List.mem_cons_self x rest
          · exact List.mem_cons_of_mem i (h3 x hx')
      · right
        refine ⟨i :: l, ps, ?_, ?_, by simp, ?_, ?_, h6⟩
        · rw [h1]; simp
        · intro x hx
          rcases List.mem_cons.mp hx with hx' | hx'
          · subst hx'; exact List.mem_cons_self x rest
          · exact List.mem_cons_of_mem i (h2 x hx')
        · intro q hq
          exact ⟨fun x hx => List.mem_cons_of_mem i ((h4 q hq).1 x hx),
            (h4 q hq).2⟩
        · intro x hx
          exact List.mem_cons_of_mem i (h5 x hx)

/-- Append monotonicity at the pagination-pass level: extending the store
from `n` to `n + m` pairs never decreases the page count, and every page
of the new layout all of whose indices predate the appended ones is the
page at the same position of the old layout. -/
theorem paginatePages_append_mono (h : ℕ → ℚ) (C : ℚ) (n m : ℕ) :
    (paginatePages h C n).length ≤ (paginatePages h C (n + m)).length ∧
    ∀ (k : ℕ) (p : List ℕ),
      (paginatePages h C (n + m))[k]? = some p →
      (∀ j ∈ p, j < n) →
      (paginatePages h C n)[k]? = some p := by
  have hdef : ∀ N : ℕ, paginatePages h C N =
      if (paginateLoop h C (List.range N) [] [] 0).2.1 = []
      then (paginateLoop h C (List.range N) [] [] 0).1
      else (paginateLoop h C (List.range N) [] [] 0).1 ++
        [(paginateLoop h C (List.range N) [] [] 0).2.1] := fun _ => rfl
  set r1 := paginateLoop h C (List.range n) [] [] 0 with hr1
  set ext := List.map (fun x => n + x) (List.range m) with hextd
  set r2 := paginateLoop h C ext r1.1 r1.2.1 r1.2.2 with hr2
  have hsplit : paginateLoop h C (List.range (n + m)) [] [] 0 = r2 := by
    rw [List.range_add, paginateLoop_append]
  have hextge : ∀ x ∈ ext, n ≤ x := by
    intro x hx
    rcases List.mem_map.mp hx with ⟨y, _, rfl⟩
    exact Nat.le_add_right n y
  rw [hdef n, hdef (n + m), hsplit]
  have hold : (if r1.2.1 = [] then r1.1 else r1.1 ++ [r1.2.1]) =
      r1.1 ++ (if r1.2.1 = [] then [] else [r1.2.1]) := by
    split_ifs <;> simp
  rcases paginateLoop_shape h C ext r1.1 r1.2.1 r1.2.2 with
    ⟨h1, l, h2, h3⟩ | ⟨l, ps, h1, h2, h3, h4, h5, h6⟩
  · have hnew : (if r2.2.1 = [] then r2.1 else r2.1 ++ [r2.2.1]) =
        r1.1 ++ (if r1.2.1 ++ l = [] then [] else [r1.2.1 ++ l]) := by
      rw [h2, h1]; split_ifs <;> simp
    rw [hnew, hold]
    constructor
    · simp only [List.length_append]
      have htail : (if r1.2.1 = [] then ([] : List (List ℕ))
          else [r1.2.1]).length ≤
          (if r1.2.1 ++ l = [] then ([] : List (List ℕ))
            else [r1.2.1 ++ l]).length := by
        by_cases ha : r1.2.1 = []
        · simp [ha]
        · rw [if_neg ha, if_neg (List.append_ne_nil_of_left_ne_nil ha l)]
          simp
      omega
    · intro k p hk hplt
      by_cases hkP : k < r1.1.length
      · rw [List.getElem?_append_left hkP] at hk ⊢
        exact hk
      · push_neg at hkP
        rw [List.getElem?_append_right hkP] at hk ⊢
        by_cases hcl : r1.2.1 ++ l = []
        · rw [if_pos hcl] at hk
          simp at hk
        · rw [if_neg hcl] at hk
          have hk0 : k - r1.1.length = 0 ∧ r1.2.1 ++ l = p := by
            cases hq : k - r1.1.length with
            | zero => rw [hq] at hk; simpa using hk
            | succ j => rw [hq] at hk; simp at hk
          obtain ⟨hk0, hpl⟩ := hk0
          have hl0 : l = [] := by
            cases l with
            | nil => rfl
            | cons x l' =>
              exfalso
              have hx : x ∈ p := by
                rw [← hpl]
                exact List.mem_append_right _ (List.mem_cons_self x l')
              have h1x := hplt x hx
              have h2x := hextge x (h3 x (List.mem_cons_self x l'))
              omega
          subst hl0
          have hcne : r1.2.1 ≠ [] := by simpa using hcl
          rw [if_neg hcne, hk0]
          simpa using hpl
  · have hnew : (if r2.2.1 = [] then r2.1 else r2.1 ++ [r2.2.1]) =
        r1.1 ++ ((r1.2.1 ++ l) :: (ps ++ [r2.2.1])) := by
      rw [if_neg h6, h1]; simp
    rw [hnew, hold]
    constructor
    · simp only [List.length_append, List.length_cons]
      have htail : (if r1.2.1 = [] then ([] : List (List ℕ))
          else [r1.2.1]).length ≤ 1 := by
        split_ifs <;> simp
      omega
    · intro k p hk hplt
      by_cases hkP : k < r1.1.length
      · rw [List.getElem?_append_left hkP] at hk ⊢
        exact hk
      · push_neg at hkP
        rw [List.getElem?_append_right hkP] at hk ⊢
        cases hq : k - r1.1.length with
        | zero =>
          rw [hq] at hk
          have hpl : r1.2.1 ++ l = p := by simpa using hk
          have hl0 : l = [] := by
            cases l with
            | nil => rfl
            | cons x l' =>
              exfalso
              have hx : x ∈ p := by
                rw [← hpl]
                exact List.mem_append_right _ (List.mem_cons_self x l')
              have h1x := hplt x hx
              have h2x := hextge x (h2 x (List.mem_cons_self x l'))
              omega
          subst hl0
          have hcne : r1.2.1 ≠ [] := by simpa using h3
          rw [if_neg hcne]
          simpa using hpl
        | succ j =>
          rw [hq] at hk
          simp only [List.getElem?_cons_succ] at hk
          rcases List.getElem?_eq_some.mp hk with ⟨hjlt, hpe⟩
          have hpmem : p ∈ ps ++ [r2.2.1] := hpe ▸ List.getElem_mem hjlt
          have hpext : (∀ x ∈ p, x ∈ ext) ∧ p ≠ [] := by
            rcases List.mem_append.mp hpmem with hp' | hp'
            · exact ⟨(h4 p hp').1, (h4 p hp').2⟩
            · rw [List.mem_singleton.mp hp']
              exact ⟨h5, h6⟩
          exfalso
          rcases List.exists_mem_of_ne_nil p hpext.2 with ⟨x, hx⟩
          have h1x := hplt x hx
          have h2x := hextge x (hpext.1 x hx)
          omega

/-- C5 counterexample: with per-pair height 1 and container height 10, the
layout of a one-pair store is `[[0]]` — a page whose maximum index 0 is
below the first appended index 1 — yet after appending one pair the page
at that position is `[0, 1]`: the membership of the old layout's (still
open) last page is changed by the append. -/
theorem append_changes_open_page_cex :
    paginateFull (fun _ _ _ => (1 : ℚ)) 18 24 100 58 1 = [[0]] ∧
    paginateFull (fun _ _ _ => (1 : ℚ)) 18 24 100 58 2 = [[0, 1]] ∧
    (∀ j ∈ ([0] : List ℕ), j < 1) ∧
    ([0] : List ℕ) ≠ [0, 1] := by
  refine ⟨?_, ?_, by decide, by decide⟩
  · norm_num [paginateFull, paginatePages, paginateLoop, containerHeight,
      containerWidth, List.range_succ]
  · norm_num [paginateFull, paginatePages, paginateLoop, containerHeight,
      containerWidth, List.range_succ]
    decide

/-- C5 as amended: for every store of `n` pairs, non-empty appended batch
of `m` pairs, fixed parameters, viewport and measure function, the page
count of the appended layout is at least that of the original, and every
page of the NEW layout all of whose indices are below the first appended
index coincides with the page at the same position of the old layout
(only the old layout's final, still-open page can gain members). -/
theorem append_monotone_closed_pages (measure : Measure)
    (fs margin vw vh : ℚ) (n m : ℕ) (_hm : 0 < m) :
    (paginateFull measure fs margin vw vh n).length ≤
      (paginateFull measure fs margin vw vh (n + m)).length ∧
    ∀ (k : ℕ) (p : List ℕ),
      (paginateFull measure fs margin vw vh (n + m))[k]? = some p →
      (∀ j ∈ p, j < n) →
      (paginateFull measure fs margin vw vh n)[k]? = some p :=
  paginatePages_append_mono _ _ n m

/-- Witness for C5 at a concrete input: one pair per page (height 6,
container height 10); appending one pair keeps the closed page `[0]` at
position 0 and the page count does not decrease. -/
theorem append_monotone_closed_pages_witness :
    (0 : ℕ) < 1 ∧
    (paginateFull (fun _ _ _ => (6 : ℚ)) 18 24 100 58 1).length ≤
      (paginateFull (fun _ _ _ => (6 : ℚ)) 18 24 100 58 (1 + 1)).length ∧
    (paginateFull (fun _ _ _ => (6 : ℚ)) 18 24 100 58 1)[0]? = some [0] :=
  ⟨by decide,
   (append_monotone_closed_pages (fun _ _ _ => 6) 18 24 100 58 1 1
     (by decide)).1,
   (append_monotone_closed_pages (fun _ _ _ => 6) 18 24 100 58 1 1
     (by decide)).2 0 [0]
     (by norm_num [paginateFull, paginatePages, paginateLoop,
        containerHeight, containerWidth, List.range_succ])
     (by decide)⟩

end BilingualReader
